import Mathlib

namespace Buildhub

/- Shallow embedding of jobs/buildhub/inventory_to_records.py.  Python dicts
   become association lists with insert-or-update semantics, network calls
   become explicit oracles, and raised exceptions become an explicit error
   type threaded through the results.  External helpers from buildhub.utils
   (not present under src/) are either parameters of the embedded functions
   or definitions marked "Modelled from the spec:". -/

/-- Exceptions the translated code can raise. -/
inductive Exc
  | timeoutError
  | clientError
  | valueError (msg : String)
  | attributeError
  | indexError
deriving DecidableEq

/-- A JSON metadata document, restricted to the fields the program reads or writes. -/
structure Metadata where
  buildid : Option String := none
  moz_source_repo : Option String := none
  moz_source_stamp : Option String := none
  buildnumber : Option Nat := none
deriving DecidableEq

/-- Outcome of one HTTP attempt inside fetch_json (lines 47-67): a timeout of
the whole attempt, a decoded JSON body, an aiohttp.ClientError, or a
ValueError (for example a JSON decode error). -/
inductive AttemptOutcome
  | timeout
  | ok (m : Metadata)
  | clientError
  | valueError (msg : String)
deriving DecidableEq

/-- One row of the S3 CSV inventory (fieldnames of read_csv, lines 36-44). -/
structure InventoryEntry where
  Bucket : String
  Key : String
  Size : String
  LastModifiedDate : String
  md5 : String
deriving DecidableEq

/-- The part of a build record skeleton that inventory_to_records.py reads:
record.id, record.source.product, record.target.channel, record.target.version,
record.target.platform and record.download.url. -/
structure BuildRecord where
  id : String
  product : String
  channel : String
  version : String
  platform : String
  url : String
deriving DecidableEq

/-- A python dict from url to metadata-or-None (the three metadata caches). -/
abbrev MetaDict := List (String × Option Metadata)

/-- The _candidates_build_folder defaultdict: product to (version to folder). -/
abbrev CandDict := List (String × List (String × String))

/-- Python dict lookup: value of the entry whose key equals k, if any. -/
def lookupD {β : Type} (m : List (String × β)) (k : String) : Option β :=
  (m.find? (fun p => p.1 == k)).map (fun p => p.2)

/-- Python dict membership test (k in d). -/
def hasKeyD {β : Type} (m : List (String × β)) (k : String) : Bool :=
  m.any (fun p => p.1 == k)

/-- Python dict assignment d[k] = v: update in place if the key exists,
otherwise append (python dicts keep insertion order). -/
def insertD {β : Type} (m : List (String × β)) (k : String) (v : β) : List (String × β) :=
  if hasKeyD m k then m.map (fun p => if p.1 == k then (k, v) else p) else m ++ [(k, v)]

/-- Python str.replace over char lists: replace every non-overlapping
occurrence of pat, scanning left to right.  The fuel argument (instantiated
with the length of the string) makes the recursion structural. -/
def replaceListFuel (pat rep : List Char) : Nat → List Char → List Char
  | _, [] => []
  | 0, cs => cs
  | fuel + 1, c :: cs =>
    if pat ≠ [] && pat.isPrefixOf (c :: cs) then
      rep ++ replaceListFuel pat rep fuel ((c :: cs).drop pat.length)
    else c :: replaceListFuel pat rep fuel cs

/-- Python str.replace(pat, rep). -/
def pyReplace (s pat rep : String) : String :=
  ⟨replaceListFuel pat.data rep.data s.data.length s.data⟩

/-- Python str.lower (ASCII, which is all the program feeds it). -/
def pyLower (s : String) : String := ⟨s.data.map Char.toLower⟩

/-- Python str.split(sep) with a non-empty separator, over char lists. -/
def splitOnFuel (sep : List Char) : Nat → List Char → List Char → List (List Char)
  | _, [], acc => [acc.reverse]
  | 0, cs, acc => [acc.reverse ++ cs]
  | fuel + 1, c :: cs, acc =>
    if sep ≠ [] && sep.isPrefixOf (c :: cs) then
      acc.reverse :: splitOnFuel sep fuel ((c :: cs).drop sep.length) []
    else splitOnFuel sep fuel cs (c :: acc)

/-- Python str.split(sep). -/
def pySplit (s sep : String) : List String :=
  (splitOnFuel sep.data s.data.length s.data []).map (fun cs => ⟨cs⟩)

/-- Python str.strip(c): drop the character c from both ends. -/
def pyStrip (c : Char) (cs : List Char) : List Char :=
  ((cs.dropWhile (fun x => x == c)).reverse.dropWhile (fun x => x == c)).reverse

/-- Contiguous sublist test over char lists. -/
def listIsInfix (needle : List Char) : List Char → Bool
  | [] => needle.isEmpty
  | c :: cs => needle.isPrefixOf (c :: cs) || listIsInfix needle cs

/-- Substring containment, python needle in hay. -/
def strContains (needle s : String) : Bool := listIsInfix needle.data s.data

/-- Numeric value of a list of decimal digit characters (int of a digit string). -/
def digitsToNat (cs : List Char) : Nat :=
  cs.foldl (fun a c => a * 10 + (c.toNat - 48)) 0

/-- os.path.dirname with posix semantics: everything up to and including the
last slash, with trailing slashes stripped unless the head is all slashes. -/
def dirname (s : String) : String :=
  let cs := s.data
  let base := cs.reverse.takeWhile (fun c => c ≠ '/')
  let head := cs.take (cs.length - base.length)
  if head ≠ [] ∧ head.any (fun c => c ≠ '/') then
    ⟨(head.reverse.dropWhile (fun c => c == '/')).reverse⟩
  else ⟨head⟩

/-- Modelled from the spec: FILE_EXTENSIONS (buildhub.utils, not under src/) is
a regex alternation of known packaging extensions, and the program derives
metadata URLs with re.sub of a final dot-extension for a new suffix
(lines 107, 117, 169).  The list of extensions is a parameter; the leftmost
regex match corresponds to the longest extension that is a suffix of the URL.
If no known extension matches, the URL is returned unchanged. -/
def replace_extension (exts : List String) (url new : String) : String :=
  let hits := exts.filter (fun e => ("." ++ e).data.isSuffixOf url.data)
  match hits.foldl (fun best e =>
      match best with
      | none => some e
      | some b => if b.length < e.length then some e else some b) none with
  | some e => ⟨url.data.take (url.data.length - (e.data.length + 1))⟩ ++ new
  | none => url

/-- fetch_json (lines 47-67) under the backoff decorator with
max_tries = NB_RETRY_REQUEST: attempts are numbered from 0 and drawn from the
oracle net; a timeout is retried while tries remain, any other outcome is
returned or raised at once.  Returns the result together with the number of
HTTP attempts actually made. -/
def fetch_json_go (net : String → Nat → AttemptOutcome) (url : String) :
    Nat → Nat → Except Exc Metadata × Nat
  | 0, made => (.error .timeoutError, made)
  | n + 1, made =>
    match net url made with
    | .timeout =>
      if n = 0 then (.error .timeoutError, made + 1)
      else fetch_json_go net url n (made + 1)
    | .ok m => (.ok m, made + 1)
    | .clientError => (.error .clientError, made + 1)
    | .valueError s => (.error (.valueError s), made + 1)

/-- fetch_json entry point: max_tries attempts allowed, none made yet. -/
def fetch_json (net : String → Nat → AttemptOutcome) (url : String) (max_tries : Nat) :
    Except Exc Metadata × Nat :=
  fetch_json_go net url max_tries 0

/-- All ways to split cs around an occurrence of pat, earliest occurrence
first: pairs (before, after) with cs = before ++ pat ++ after. -/
def allInfixSplits (pat cs : List Char) : List (List Char × List Char) :=
  (List.range (cs.length + 1)).filterMap (fun i =>
    if pat.isPrefixOf (cs.drop i) then some (cs.take i, cs.drop (i + pat.length)) else none)

/-- The first legacy text format of nightly metadata (line 120), the regex
search of a caret, digits, a newline, an http prefix, a /rev/ separator and a
trailing dollar: digits are the maximal digit prefix, the matched region must
reach the end of the string (one final newline may stay outside the match),
neither captured part may contain a newline, and greedy matching picks the
last /rev/ occurrence that leaves a non-empty revision and at least one
character between http and /rev/. -/
def parse_txt_v1 (s : String) : Option (String × String × String) :=
  let cs := s.data
  let digits := cs.takeWhile Char.isDigit
  let rest := cs.drop digits.length
  if digits.isEmpty then none else
  match rest with
  | '\n' :: rest2 =>
    let core := if rest2.getLast? = some '\n' then rest2.dropLast else rest2
    if core.contains '\n' then none else
    if !("http".data.isPrefixOf core) then none else
    match (allInfixSplits "/rev/".data core).filter
        (fun lr => 5 ≤ lr.1.length && !lr.2.isEmpty) |>.getLast? with
    | some lr => some (⟨digits⟩, ⟨lr.1⟩, ⟨lr.2⟩)
    | none => none
  | _ => none

/-- The second legacy text format (line 131): digits, one space, and a
non-empty remainder without newlines (a final newline may stay outside). -/
def parse_txt_v2 (s : String) : Option (String × String) :=
  let cs := s.data
  let digits := cs.takeWhile Char.isDigit
  let rest := cs.drop digits.length
  if digits.isEmpty then none else
  match rest with
  | ' ' :: rest2 =>
    let core := if rest2.getLast? = some '\n' then rest2.dropLast else rest2
    if core.isEmpty || core.contains '\n' then none else some (⟨digits⟩, ⟨core⟩)
  | _ => none

/-- fetch_nightly_metadata (lines 93-146).  The external
buildhub.utils.localize_nightly_url is passed in as localize, the JSON
attempt oracle as jsonNet and the plain-text GET of the legacy txt companion
as textNet (an error is an aiohttp.ClientError).  Returns the
metadata-or-None result (or a propagating exception), the updated
_nightly_metadata cache, and the number of HTTP requests made.  As in the
source, positive results are stored under the localized nightly_url while the
known-absent marker is stored under the raw url (line 145). -/
def fetch_nightly_metadata (exts : List String) (localize : String → String)
    (jsonNet : String → Nat → AttemptOutcome) (textNet : String → Except Unit String)
    (max_tries : Nat) (r : BuildRecord) (cache : MetaDict) :
    Except Exc (Option Metadata) × MetaDict × Nat :=
  let url := r.url
  let nightly_url := localize url
  match lookupD cache nightly_url with
  | some v => (.ok v, cache, 0)
  | none =>
    let metadata_url := replace_extension exts nightly_url ".json"
    match fetch_json jsonNet metadata_url max_tries with
    | (.ok m, n) => (.ok (some m), insertD cache nightly_url (some m), n)
    | (.error .clientError, n) =>
      let old_metadata_url := replace_extension exts nightly_url ".txt"
      match textNet old_metadata_url with
      | .ok body =>
        match parse_txt_v1 body with
        | some g =>
          let m : Metadata :=
            { buildid := some g.1, moz_source_repo := some g.2.1,
              moz_source_stamp := some g.2.2 }
          (.ok (some m), insertD cache nightly_url (some m), n + 1)
        | none =>
          match parse_txt_v2 body with
          | some g =>
            let m : Metadata :=
              { buildid := some g.1, moz_source_stamp := some g.2,
                moz_source_repo := some "http://hg.mozilla.org/mozilla-central" }
            (.ok (some m), insertD cache nightly_url (some m), n + 1)
          | none => (.ok none, insertD cache url none, n + 1)
      | .error _ => (.ok none, insertD cache url none, n + 1)
    | (.error e, n) => (.error e, cache, n)

/-- re.search of a /build digits slash segment in a URL (line 185): leftmost
position where the literal /build is followed by at least one digit whose
maximal run is followed by a slash. -/
def buildSegAt (cs : List Char) : Option Nat :=
  if "/build".data.isPrefixOf cs then
    let rest := cs.drop 6
    let digits := rest.takeWhile Char.isDigit
    if !digits.isEmpty && (rest.drop digits.length).head? == some '/' then
      some (digitsToNat digits)
    else none
  else none

/-- Scan all positions left to right for a /build digits slash segment. -/
def findBuildSegment : List Char → Option Nat
  | [] => none
  | c :: cs =>
    match buildSegAt (c :: cs) with
    | some n => some n
    | none => findBuildSegment cs

/-- The metadata URL derivation of fetch_release_candidate_metadata
(lines 165-174): devedition is treated as firefox, fennec swaps the file
extension for .json, and every other product replaces the last path component
with product-majorversion.json where the major version is the version text
before the rc suffix. -/
def rc_metadata_url (exts : List String) (localize_rc : String → String)
    (r : BuildRecord) : String :=
  let rc_url := localize_rc r.url
  let product := if r.product == "devedition" then "firefox" else r.product
  if product == "fennec" then replace_extension exts rc_url ".json"
  else
    let major := match pySplit r.version "rc" with
      | [] => r.version
      | x :: _ => x
    let parts := pySplit rc_url "/"
    String.intercalate "/" (parts.dropLast ++ [product ++ "-" ++ major ++ ".json"])

/-- fetch_release_candidate_metadata (lines 152-189).  A ClientError on the
metadata fetch caches the url as known-absent; on success the build number is
extracted from the original download URL with re.search, and a missing
/build digits/ segment raises AttributeError (m.group on None) before
anything is cached. -/
def fetch_release_candidate_metadata (exts : List String) (localize_rc : String → String)
    (jsonNet : String → Nat → AttemptOutcome) (max_tries : Nat)
    (r : BuildRecord) (cache : MetaDict) :
    Except Exc (Option Metadata) × MetaDict × Nat :=
  let rc_url := localize_rc r.url
  match lookupD cache rc_url with
  | some v => (.ok v, cache, 0)
  | none =>
    let metadata_url := rc_metadata_url exts localize_rc r
    match fetch_json jsonNet metadata_url max_tries with
    | (.error .clientError, n) => (.ok none, insertD cache rc_url none, n)
    | (.error e, n) => (.error e, cache, n)
    | (.ok m, n) =>
      match findBuildSegment r.url.data with
      | none => (.error .attributeError, cache, n)
      | some k => (.ok (some { m with buildnumber := some k }),
                   insertD cache rc_url (some { m with buildnumber := some k }), n)

/-- re.sub of -(eme-free|sha1) with the ignore-case flag (line 249): every
non-overlapping occurrence is removed, scanning left to right, eme-free
before sha1 at each position.  Fuel makes the recursion structural. -/
def stripRepacksFuel : Nat → List Char → List Char
  | _, [] => []
  | 0, cs => cs
  | fuel + 1, c :: cs =>
    if "-eme-free".data.isPrefixOf ((c :: cs).map Char.toLower) then
      stripRepacksFuel fuel ((c :: cs).drop 9)
    else if "-sha1".data.isPrefixOf ((c :: cs).map Char.toLower) then
      stripRepacksFuel fuel ((c :: cs).drop 5)
    else c :: stripRepacksFuel fuel cs

/-- Platform normalization of fetch_release_metadata. -/
def stripRepacks (platform : String) : String :=
  ⟨stripRepacksFuel platform.data.length platform.data⟩

/-- The defaultdict(dict) access _candidates_build_folder[product]
(line 241): reading a missing product key inserts an empty dict for it. -/
def defaultdictAccess (cd : CandDict) (p : String) : CandDict × List (String × String) :=
  match cd.find? (fun q => q.1 == p) with
  | some q => (cd, q.2)
  | none => (cd ++ [(p, [])], [])

/-- python int of a single character: its digit value, else ValueError. -/
def charToInt (c : Char) : Except Exc Nat :=
  if c.isDigit then .ok (c.toNat - 48) else .error (.valueError "invalid literal for int")

/-- The file loop of fetch_release_metadata (lines 264-278): try each listed
file whose name matches the metadata filename predicate, fetching it as JSON;
a ClientError moves on to the next file, success attaches the build number
and caches, and exhausting the files caches the url as known-absent and then
raises ValueError (line 278). -/
def releaseFilesLoop (is_meta : String → String → String → Bool)
    (jsonNet : String → Nat → AttemptOutcome) (max_tries : Nat)
    (product version url : String) (build_number : Nat) (cache : MetaDict) :
    List String → Nat → Except Exc (Option Metadata) × MetaDict × Nat
  | [], calls =>
    (.error (.valueError ("Missing metadata for candidate " ++ url)),
     insertD cache url none, calls)
  | f :: fs, calls =>
    if is_meta product version f then
      match fetch_json jsonNet (url ++ f) max_tries with
      | (.ok m, n) =>
        (.ok (some { m with buildnumber := some build_number }),
         insertD cache url (some { m with buildnumber := some build_number }), calls + n)
      | (.error .clientError, n) =>
        releaseFilesLoop is_meta jsonNet max_tries product version url build_number cache fs (calls + n)
      | (.error e, n) => (.error e, cache, calls + n)
    else releaseFilesLoop is_meta jsonNet max_tries product version url build_number cache fs calls

/-- fetch_release_metadata (lines 230-278).  The external
buildhub.utils.archive_url and is_release_build_metadata are the release_url
and is_meta parameters; listNet is the observable behavior of fetch_listing
(lines 70-75): prefixes and file names on success, ValueError on a transport,
key or parse error, timeouts propagating as timeouts.  The build number is
int of the last character of the stripped folder name (line 246). -/
def fetch_release_metadata (is_meta : String → String → String → Bool)
    (release_url : String → String → String → String → String → String)
    (jsonNet : String → Nat → AttemptOutcome)
    (listNet : String → Except Exc (List String × List String)) (max_tries : Nat)
    (r : BuildRecord) (cd : CandDict) (cache : MetaDict) :
    Except Exc (Option Metadata) × CandDict × MetaDict × Nat :=
  let acc := defaultdictAccess cd r.product
  let cd := acc.1
  match lookupD acc.2 r.version with
  | none => (.ok none, cd, cache, 0)
  | some latest_build_folder =>
    match (pyStrip '/' latest_build_folder.data).getLast? with
    | none => (.error .indexError, cd, cache, 0)
    | some c =>
      match charToInt c with
      | .error e => (.error e, cd, cache, 0)
      | .ok build_number =>
        let platform := stripRepacks r.platform
        let url := release_url r.product r.version platform "en-US" ("/" ++ latest_build_folder)
        match lookupD cache url with
        | some v => (.ok v, cd, cache, 0)
        | none =>
          match listNet url with
          | .error (.valueError _) => (.ok none, cd, insertD cache url none, 1)
          | .error e => (.error e, cd, cache, 1)
          | .ok pf =>
            let res := releaseFilesLoop is_meta jsonNet max_tries r.product r.version url
              build_number cache pf.2 0
            (res.1, cd, res.2.1, res.2.2 + 1)

/-- The collaborators and configuration every fetch needs: the external URL
helpers of buildhub.utils, the network oracles, and NB_RETRY_REQUEST. -/
structure Env where
  exts : List String
  localize_nightly : String → String
  localize_rc : String → String
  is_release_build_metadata : String → String → String → Bool
  release_url : String → String → String → String → String → String
  jsonNet : String → Nat → AttemptOutcome
  textNet : String → Except Unit String
  listNet : String → Except Exc (List String × List String)
  max_tries : Nat

/-- The three module-level metadata caches and the candidate build index. -/
structure Caches where
  nightly : MetaDict
  rc : MetaDict
  release : MetaDict
  candidates : CandDict
deriving DecidableEq

/-- fetch_metadata (lines 78-87): dispatch on nightly in channel, then rc in
version, else release; a ValueError raised by the chosen strategy is logged
and turned into None, every other exception propagates. -/
def fetch_metadata (env : Env) (r : BuildRecord) (c : Caches) :
    Except Exc (Option Metadata) × Caches × Nat :=
  let inner :=
    if strContains "nightly" r.channel then
      let res := fetch_nightly_metadata env.exts env.localize_nightly env.jsonNet
        env.textNet env.max_tries r c.nightly
      (res.1, { c with nightly := res.2.1 }, res.2.2)
    else if strContains "rc" r.version then
      let res := fetch_release_candidate_metadata env.exts env.localize_rc env.jsonNet
        env.max_tries r c.rc
      (res.1, { c with rc := res.2.1 }, res.2.2)
    else
      let res := fetch_release_metadata env.is_release_build_metadata env.release_url
        env.jsonNet env.listNet env.max_tries r c.candidates c.release
      (res.1, { c with candidates := res.2.1, release := res.2.2.1 }, res.2.2.2)
  match inner with
  | (.error (.valueError _), c2, n) => (.ok none, c2, n)
  | x => x

/-- Modelled from the spec: the chunked utility of buildhub.utils (not under
src/) splits a sequence into consecutive chunks of at most n elements, used
to cap outstanding requests (spec 4.2).  Fuel makes the recursion
structural; an empty input yields no chunks. -/
def chunkedFuel {α : Type} : Nat → List α → Nat → List (List α)
  | _, [], _ => []
  | 0, l, _ => [l]
  | fuel + 1, l, n =>
    if n = 0 then [l] else l.take n :: chunkedFuel fuel (l.drop n) n

/-- chunked(iterable, n). -/
def chunked {α : Type} (l : List α) (n : Nat) : List (List α) :=
  chunkedFuel l.length l n

/-- asyncio.gather over fetch_listing calls (line 220): all listings in a
chunk are gathered; the first raised exception propagates. -/
def gatherListings (listNet : String → Except Exc (List String × List String)) :
    List String → Except Exc (List (List String × List String))
  | [] => .ok []
  | u :: us =>
    match listNet u with
    | .error e => .error e
    | .ok r =>
      match gatherListings listNet us with
      | .error e => .error e
      | .ok rs => .ok (r :: rs)

/-- Insertion into the per-product version map of the candidate index,
mirroring _candidates_build_folder[product][version] = folder (line 224):
the defaultdict creates the product entry on first write. -/
def candInsert (cd : CandDict) (p v f : String) : CandDict :=
  if hasKeyD cd p then
    cd.map (fun q => if q.1 == p then (p, insertD q.2 v f) else q)
  else cd ++ [(p, [(v, f)])]

/-- The write loop of scan_candidates (lines 222-224): for each version and
its gathered listing record the lexicographically last build folder;
sorted of an empty folder list raises IndexError, earlier writes persist. -/
def foldWrites (p : String) : List (String × List String) → CandDict → Option Exc × CandDict
  | [], cd => (none, cd)
  | (v, builds) :: rest, cd =>
    match builds with
    | [] => (some .indexError, cd)
    | b :: bs =>
      foldWrites p rest (candInsert cd p v (bs.foldl (fun a x => if a < x then x else a) b))

/-- The chunk loop of scan_candidates (lines 209-224): per chunk, keep the
folders containing -candidates, derive versions, gather their build listings
(every URL of a failing chunk was still requested), then record the latest
build folder per version.  Returns the first exception if any, the updated
index, and the listing URLs fetched. -/
def scanChunks (builds_url : String → String → String)
    (listNet : String → Except Exc (List String × List String)) (p : String) :
    List (List String) → CandDict → Option Exc × CandDict × List String
  | [], cd => (none, cd, [])
  | chunk :: rest, cd =>
    let versions := (chunk.filter (fun f => strContains "-candidates" f)).map
      (fun f => pyReplace f "-candidates/" "")
    let urls := versions.map (fun v => builds_url p v)
    match gatherListings listNet urls with
    | .error e => (some e, cd, urls)
    | .ok listings =>
      match foldWrites p (versions.zip (listings.map (fun x => x.1))) cd with
      | (some e, cd2) => (some e, cd2, urls)
      | (none, cd2) =>
        let tail := scanChunks builds_url listNet p rest cd2
        (tail.1, tail.2.1, urls ++ tail.2.2)

/-- The mobile-to-fennec aliasing at the top of scan_candidates (lines 199-200). -/
def scanAlias (product : String) : String :=
  if product == "mobile" then "fennec" else product

/-- scan_candidates (lines 195-224).  candidates_url and builds_url stand for
the external archive_url calls; listNet is the observable behavior of
fetch_listing.  Returns the first exception if any, the updated candidate
index, and the listing URLs fetched. -/
def scan_candidates (candidates_url : String → String)
    (builds_url : String → String → String)
    (listNet : String → Except Exc (List String × List String)) (nb : Nat)
    (product : String) (cd : CandDict) : Option Exc × CandDict × List String :=
  let p := scanAlias product
  if hasKeyD cd p then (none, cd, [])
  else
    match listNet (candidates_url p) with
    | .error e => (some e, cd, [candidates_url p])
    | .ok pf =>
      let res := scanChunks builds_url listNet p (chunked pf.1 nb) cd
      (res.1, res.2.1, candidates_url p :: res.2.2)

/-- The fan-out of process_batch (lines 284-285): fetch metadata for each
record of the batch in order, threading the shared caches, collecting each
result and the total request count. -/
def fetchAll (env : Env) : List BuildRecord → Caches →
    List (Except Exc (Option Metadata)) × Caches × Nat
  | [], c => ([], c, 0)
  | r :: rs, c =>
    let first := fetch_metadata env r c
    let rest := fetchAll env rs first.2.1
    (first.1 :: rest.1, rest.2.1, first.2.2 + rest.2.2)

/-- asyncio.gather propagation: the first exception among the results. -/
def firstError : List (Except Exc (Option Metadata)) → Option Exc
  | [] => none
  | .error e :: _ => some e
  | .ok _ :: rest => firstError rest

/-- process_batch (lines 281-296).  merge_metadata and check_record are the
external buildhub.utils merger and validator; following the spec (4.6) the
merge is kept as the record paired with its metadata, and check is the
required-fields predicate.  If any fetch raised, the gather raises and the
batch yields nothing; otherwise every merged pair passing check (or every
pair, when skip_incomplete is false) is yielded in batch order. -/
def process_batch (env : Env) (check : BuildRecord → Option Metadata → Bool)
    (batch : List BuildRecord) (skip_incomplete : Bool) (c : Caches) :
    Except Exc (List (BuildRecord × Option Metadata)) × Caches × Nat :=
  let fetched := fetchAll env batch c
  match firstError fetched.1 with
  | some e => (.error e, fetched.2.1, fetched.2.2)
  | none =>
    let metadatas := fetched.1.map (fun x =>
      match x with
      | .ok v => v
      | .error _ => none)
    let results := batch.zip metadatas
    (.ok (results.filter (fun p => check p.1 p.2 || !skip_incomplete)),
     fetched.2.1, fetched.2.2)

/-- The batch accumulation of csv_to_records (lines 349-396), abstracted over
the record type: while the batch holds fewer than NB_PARALLEL_REQUESTS
records the next record is appended; otherwise the full batch is handed to
process_batch, the batch is reset to empty, and the loop moves on to the next
record (the record that triggered the flush is not added to either batch).
After the loop the final batch is processed unconditionally.  Returns the
successive batches handed to process_batch, in order. -/
def csvBatchLoop {α : Type} (nb : Nat) : List α → List α → List (List α)
  | batch, [] => [batch]
  | batch, r :: rest =>
    if batch.length < nb then csvBatchLoop nb (batch ++ [r]) rest
    else batch :: csvBatchLoop nb [] rest

/-- The normalized identity of deduplicate_entries (lines 328-335): lower-case
the key, then replace plus setup plus by a dash and drop the installer.exe,
exe, installer.tar.gz, tar.gz and zip suffix markers, in that order, each
replacement removing every occurrence. -/
def normalize_key (k : String) : String :=
  pyReplace (pyReplace (pyReplace (pyReplace (pyReplace (pyReplace
    (pyLower k) "+setup+" "-") ".installer.exe" "") ".exe" "")
    ".installer.tar.gz" "") ".tar.gz" "") ".zip" ""

/-- Stable insertion keeping keys in weakly decreasing length order: an
element is placed after every element whose key is at least as long. -/
def insertByLenDesc (e : InventoryEntry) : List InventoryEntry → List InventoryEntry
  | [] => [e]
  | x :: xs =>
    if x.Key.length < e.Key.length then e :: x :: xs else x :: insertByLenDesc e xs

/-- python sorted(entries, key=len of Key, reverse=True) (line 327): the
stable descending sort, realized as stable insertion sort (stable sorting is
uniquely determined by the ordering, so this equals python sorted). -/
def sortedByLenDesc (l : List InventoryEntry) : List InventoryEntry :=
  l.foldl (fun acc e => insertByLenDesc e acc) []

/-- deduplicate_entries (lines 323-337): sort longer keys first, build a dict
from normalized identity to entry (later, shorter entries overwrite earlier,
longer ones), and return the dict values in insertion order. -/
def deduplicate_entries (entries : List InventoryEntry) : List InventoryEntry :=
  ((sortedByLenDesc entries).foldl
    (fun m e => insertD m (normalize_key e.Key) e) []).map (fun p => p.2)

/-- The grouping loop of inventory_by_folder (lines 304-321) after the first
entry fixed the current folder: while the folder of the next key equals the
current one the entry joins the current group, otherwise the group is yielded
and a new group starts; the trailing non-empty group is yielded at the end. -/
def ibfLoop (prev : String) (result : List InventoryEntry) :
    List InventoryEntry → List (List InventoryEntry)
  | [] => if result.isEmpty then [] else [result]
  | e :: rest =>
    if prev == dirname e.Key then ibfLoop prev (result ++ [e]) rest
    else result :: ibfLoop (dirname e.Key) [e] rest

/-- inventory_by_folder (lines 304-321): group the entry stream by the
directory component of the key, yielding one group per maximal run. -/
def inventory_by_folder : List InventoryEntry → List (List InventoryEntry)
  | [] => []
  | e :: rest => ibfLoop (dirname e.Key) [e] rest

/-- Modelled from the spec: the build number the specification describes for a
candidate folder name, the integer formed by its trailing digits (spec 4.3,
release strategy).  Used only to compare the source computation against the
specified one. -/
def trailingBuildDigits (folder : String) : Nat :=
  digitsToNat ((pyStrip '/' folder.data).reverse.takeWhile Char.isDigit).reverse

/-- Empty caches, the state at the start of a run without a cache file. -/
def emptyCaches : Caches := ⟨[], [], [], []⟩

/-- Modelled from the spec: a concrete instance of
buildhub.utils.localize_nightly_url (not under src/), which forces the locale
component of a nightly URL to the reference locale en-US (spec 3, 4.3); on
the URLs used here the locale segment .fr. becomes .en-US. . -/
def locFr (u : String) : String := pyReplace u ".fr." ".en-US."

/-- A French nightly download URL, whose localized form differs from it. -/
def c4url : String :=
  "https://archive.mozilla.org/pub/firefox/nightly/2011/05/2011-05-05-03-mozilla-central/firefox-6.0a1.fr.mac.dmg"

/-- The nightly record downloading c4url. -/
def c4record : BuildRecord := ⟨"id4", "firefox", "nightly", "6.0a1", "mac", c4url⟩

/-- A metadata oracle on which every JSON attempt fails as a ClientError. -/
def allClientError : String → Nat → AttemptOutcome := fun _ _ => .clientError

/-- A text oracle on which every legacy txt fetch fails as a ClientError. -/
def noText : String → Except Unit String := fun _ => .error ()

/-- An en-US nightly download URL for the legacy text fallback scenario. -/
def c8url : String :=
  "https://archive.mozilla.org/pub/firefox/nightly/2011/05/2011-05-05-03-mozilla-central/firefox-6.0a1.en-US.mac.dmg"

/-- The nightly record downloading c8url. -/
def c8record : BuildRecord := ⟨"id8", "firefox", "nightly", "6.0a1", "mac", c8url⟩

/-- The exact two-line legacy txt body of the claim. -/
def c8txt : String :=
  "20110505030000\nhttp://hg.mozilla.org/mozilla-central/rev/abcdef123456"

/-- A text oracle serving the legacy txt body. -/
def c8textNet : String → Except Unit String := fun _ => .ok c8txt

/-- The metadata the legacy fallback should produce on c8txt. -/
def c8meta : Metadata :=
  { buildid := some "20110505030000",
    moz_source_repo := some "http://hg.mozilla.org/mozilla-central",
    moz_source_stamp := some "abcdef123456" }

/-- A release-strategy filename predicate accepting every file. -/
def anyMeta : String → String → String → Bool := fun _ _ _ => true

/-- A concrete stand-in for archive_url in the release strategy. -/
def concatUrl : String → String → String → String → String → String :=
  fun p v pl l c => "A/" ++ p ++ "/" ++ v ++ "/" ++ pl ++ "/" ++ l ++ c

/-- A metadata oracle answering every attempt with an empty JSON object. -/
def alwaysOkJson : String → Nat → AttemptOutcome := fun _ _ => .ok {}

/-- A listing oracle exposing one metadata file and no sub-folders. -/
def c5listNet : String → Except Exc (List String × List String) :=
  fun _ => .ok ([], ["firefox-55.0.json"])

/-- A release record for firefox 55.0. -/
def c5record : BuildRecord := ⟨"id5", "firefox", "release", "55.0", "win64", "u5"⟩

/-- A candidate index whose latest build folder for firefox 55.0 is build12. -/
def c5cand : CandDict := [("firefox", [("55.0", "build12/")])]

/-- A listing oracle with no sub-folders and no files. -/
def emptyListNet : String → Except Exc (List String × List String) :=
  fun _ => .ok ([], [])

/-- A concrete stand-in for the candidates listing URL of archive_url. -/
def candUrlOf (p : String) : String := "C/" ++ p

/-- A concrete stand-in for the per-version builds listing URL of archive_url. -/
def buildsUrlOf (p v : String) : String := "B/" ++ p ++ "/" ++ v

/-- A release record whose product is mobile. -/
def c10record : BuildRecord := ⟨"idm", "mobile", "release", "1.0", "android", "um"⟩

/-- An environment whose metadata oracle succeeds only for good.json and
times out on every attempt for every other URL. -/
def cxEnv : Env :=
  { exts := ["zip"], localize_nightly := id, localize_rc := id,
    is_release_build_metadata := fun _ _ _ => false,
    release_url := fun _ _ _ _ _ => "R",
    jsonNet := fun u _ => if u = "good.json" then .ok {} else .timeout,
    textNet := noText, listNet := fun _ => .error (.valueError "x"),
    max_tries := 3 }

/-- A nightly record whose metadata URL is the succeeding good.json. -/
def cxGood : BuildRecord := ⟨"g", "firefox", "nightly", "75.0a1", "win64", "good.zip"⟩

/-- A nightly record whose metadata URL times out on every attempt. -/
def cxBad : BuildRecord := ⟨"b", "firefox", "nightly", "75.0a1", "win64", "bad.zip"⟩

/-- An environment whose metadata oracle always succeeds, for the
release-candidate strategy. -/
def c9env : Env :=
  { exts := ["zip"], localize_nightly := id, localize_rc := id,
    is_release_build_metadata := fun _ _ _ => false,
    release_url := fun _ _ _ _ _ => "R",
    jsonNet := alwaysOkJson, textNet := noText,
    listNet := fun _ => .error (.valueError "x"),
    max_tries := 3 }

/-- A release-candidate record whose download URL has no /build digits/
segment. -/
def c9record : BuildRecord :=
  ⟨"id9", "firefox", "release", "55.0rc1", "win64",
   "https://archive.mozilla.org/pub/firefox/candidates/55.0rc1/win64/en-US/firefox-55.0rc1.zip"⟩

/-- A nightly record for the sibling slot of the C9 batch, resolved from the
cache. -/
def c9sibling : BuildRecord := ⟨"sib", "firefox", "nightly", "75.0a1", "win64", "sib.zip"⟩

/-- Caches holding a positive nightly entry for the sibling record. -/
def c9caches : Caches := ⟨[("sib.zip", some {})], [], [], []⟩

/-- Two entries of one folder whose normalized identities collide with
different raw key lengths: the installer.tar.gz form and the tar.gz form. -/
def entInstaller : InventoryEntry := ⟨"bk", "a.installer.tar.gz", "1", "d", "m"⟩

/-- The shorter tar.gz sibling of entInstaller. -/
def entTarGz : InventoryEntry := ⟨"bk", "a.tar.gz", "1", "d", "m"⟩

/- Theorems.  Each claim of the specification review gets one theorem (plus,
where the claim fails, a closed counterexample evaluating the embedded code
at a concrete input). -/

/-- C1: refuted on the code as written.  With the default batch bound of 8, a
ninth surviving record arrives while the batch is already full; the loop
processes the full batch, resets it, and never appends the ninth record, so
it is lost: the batches handed to process_batch join to the first eight
records only, although the ninth passed every filter. -/
theorem C1_full_batch_record_dropped :
    (csvBatchLoop 8 ([] : List Nat) [1, 2, 3, 4, 5, 6, 7, 8, 9]).flatten
        = [1, 2, 3, 4, 5, 6, 7, 8]
    ∧ (9 : Nat) ∉ (csvBatchLoop 8 ([] : List Nat) [1, 2, 3, 4, 5, 6, 7, 8, 9]).flatten := by
  decide

/-- C4: refuted on the code as written.  For a nightly record with a
non-reference locale, the negative result is cached under the raw download
URL (line 145) while lookups use the localized URL, so a second resolution of
the very same record misses the cache and performs network requests again
(two here: the JSON attempt and the legacy txt attempt), although the key was
already marked absent. -/
theorem C4_negative_cache_keyed_on_raw_url :
    fetch_nightly_metadata ["dmg"] locFr allClientError noText 3 c4record []
        = (.ok none, [(c4url, none)], 2)
    ∧ locFr c4url ≠ c4url
    ∧ (fetch_nightly_metadata ["dmg"] locFr allClientError noText 3 c4record
        [(c4url, none)]).2.2 = 2 := by
  refine ⟨rfl, by decide, rfl⟩

/-- C5: refuted on the code as written.  For the candidate folder build12 the
code computes int of the last character of the stripped folder name
(line 246), so the metadata carries build number 2, while the integer formed
by the trailing digits of the folder name is 12. -/
theorem C5_build_number_last_char_only :
    (fetch_release_metadata anyMeta concatUrl alwaysOkJson c5listNet 3 c5record
        c5cand []).1
      = .ok (some { buildnumber := some 2 })
    ∧ trailingBuildDigits "build12/" = 12
    ∧ (2 : Nat) ≠ 12 := by
  refine ⟨rfl, by decide, by decide⟩

/-- C8: confirmed.  When the JSON metadata fetch fails as a ClientError and
the legacy txt companion holds exactly the two-line body of the claim, the
fallback parser produces build id 20110505030000, source repository
http://hg.mozilla.org/mozilla-central and source stamp abcdef123456, and the
result is cached under the localized nightly URL. -/
theorem C8_legacy_txt_fallback :
    fetch_nightly_metadata ["dmg"] id allClientError c8textNet 3 c8record []
      = (.ok (some c8meta), [(c8url, some c8meta)], 2) := by
  rfl

/-- C3 counterexample: two entries of one folder normalize to the same
identity, yet the survivor is the entry with the shorter raw key: the dict
comprehension iterates the longest keys first, so the shortest entry is
written last and wins; the installer.tar.gz entry is eliminated by its
tar.gz sibling, contradicting the claim that the longer raw key survives. -/
theorem C3_longer_key_does_not_survive :
    normalize_key entInstaller.Key = normalize_key entTarGz.Key
    ∧ entTarGz.Key.length < entInstaller.Key.length
    ∧ deduplicate_entries [entInstaller, entTarGz] = [entTarGz] := by
  refine ⟨rfl, by decide, rfl⟩

/-- C2 counterexample: in a batch of two nightly records, the sibling record
resolves fine, but the record whose every attempt times out exhausts its
three attempts and the TimeoutError propagates through fetch_metadata (which
catches only ValueError) into the gather, so process_batch raises and the
whole batch is aborted instead of the failed record degrading to
metadata-absent. -/
theorem C2_timeout_exhaustion_aborts_batch :
    (fetch_metadata cxEnv cxGood emptyCaches).1 = .ok (some {})
    ∧ (process_batch cxEnv (fun _ _ => true) [cxGood, cxBad] true emptyCaches).1
        = .error .timeoutError := by
  refine ⟨rfl, rfl⟩

/-- C6 counterexample: a completed scan of a product whose candidates listing
holds no -candidates folders records nothing, so the product key is never
inserted; a second scan of the same product is not a no-op: it fetches the
candidates listing again. -/
theorem C6_second_scan_refetches_listing :
    scan_candidates candUrlOf buildsUrlOf emptyListNet 8 "firefox" []
        = (none, [], ["C/firefox"])
    ∧ (scan_candidates candUrlOf buildsUrlOf emptyListNet 8 "firefox"
        ((scan_candidates candUrlOf buildsUrlOf emptyListNet 8 "firefox" []).2.1)).2.2
        ≠ [] := by
  refine ⟨rfl, by decide⟩

/-- C10 counterexample: looking up a release record for the never-scanned
product mobile inserts an empty map under the key mobile, but a later
scan of mobile checks the alias fennec, so it does not return immediately:
it fetches the candidates listing, contradicting the claim for this
product. -/
theorem C10_mobile_lookup_scan_not_noop :
    (fetch_release_metadata anyMeta concatUrl alwaysOkJson emptyListNet 3
        c10record [] []).2.1 = [("mobile", [])]
    ∧ (scan_candidates candUrlOf buildsUrlOf emptyListNet 8 "mobile"
        [("mobile", [])]).2.2 ≠ [] := by
  refine ⟨rfl, by decide⟩

/-- Helper: when every attempt on a URL times out, fetch_json_go performs
exactly the allowed number of attempts and raises the timeout. -/
theorem fetch_json_go_all_timeout (net : String → Nat → AttemptOutcome) (url : String)
    (h : ∀ k, net url k = .timeout) :
    ∀ (n made : Nat), 0 < n →
      fetch_json_go net url n made = (.error .timeoutError, made + n) := by
  intro n
  induction n with
  | zero => intro made h0; omega
  | succ m ih =>
    intro made _
    simp only [fetch_json_go, h made]
    cases m with
    | zero => simp
    | succ k =>
      simp only [Nat.succ_ne_zero, if_false]
      rw [ih (made + 1) (Nat.succ_pos k)]
      refine congrArg _ ?_
      omega

/-- Helper: the same bound at the fetch_json entry point. -/
theorem fetch_json_all_timeout (net : String → Nat → AttemptOutcome) (url : String)
    (n : Nat) (hn : 0 < n) (h : ∀ k, net url k = .timeout) :
    fetch_json net url n = (.error .timeoutError, n) := by
  rw [fetch_json, fetch_json_go_all_timeout net url h n 0 hn]
  simp

/-- C2 amended: the retry accounting of the claim holds, but timeout
exhaustion does not degrade to metadata-absent.  A fetch whose every attempt
times out performs exactly max_tries attempts and raises a TimeoutError; a
first attempt failing with a non-timeout error is not retried; and for a
nightly record whose metadata URL always times out, the TimeoutError
propagates through fetch_metadata, which catches only ValueError, so the
gather of process_batch raises and the whole batch is aborted instead of the
record surfacing as metadata-absent.  The backoff delays themselves are
timing behavior outside the model. -/
theorem C2_retry_bound_amended :
    (∀ (net : String → Nat → AttemptOutcome) (url : String) (n : Nat), 0 < n →
        (∀ k, net url k = .timeout) →
        fetch_json net url n = (.error .timeoutError, n))
    ∧ (∀ (net : String → Nat → AttemptOutcome) (url : String) (n : Nat), 0 < n →
        net url 0 = .clientError →
        fetch_json net url n = (.error .clientError, 1))
    ∧ (∀ (env : Env) (r : BuildRecord) (c : Caches),
        strContains "nightly" r.channel = true →
        lookupD c.nightly (env.localize_nightly r.url) = none →
        (∀ k, env.jsonNet
            (replace_extension env.exts (env.localize_nightly r.url) ".json") k
            = .timeout) →
        0 < env.max_tries →
        fetch_metadata env r c = (.error .timeoutError, c, env.max_tries)
        ∧ ∀ (check : BuildRecord → Option Metadata → Bool) (skip : Bool),
            (process_batch env check [r] skip c).1 = .error .timeoutError) := by
  refine ⟨fun net url n hn h => fetch_json_all_timeout net url n hn h, ?_, ?_⟩
  · intro net url n hn h
    obtain ⟨k, hk⟩ : ∃ k, n = k + 1 := ⟨n - 1, by omega⟩
    rw [hk, fetch_json]
    simp only [fetch_json_go, h]
  · intro env r c hch hlook hto hmt
    have hfj := fetch_json_all_timeout env.jsonNet
      (replace_extension env.exts (env.localize_nightly r.url) ".json")
      env.max_tries hmt hto
    have hfn : fetch_nightly_metadata env.exts env.localize_nightly env.jsonNet
        env.textNet env.max_tries r c.nightly
        = (.error .timeoutError, c.nightly, env.max_tries) := by
      simp only [fetch_nightly_metadata, hlook, hfj]
    have hfm : fetch_metadata env r c = (.error .timeoutError, c, env.max_tries) := by
      simp only [fetch_metadata, hch, if_true, hfn]
    refine ⟨hfm, ?_⟩
    intro check skip
    simp only [process_batch, fetchAll, hfm, firstError]

/-- Witness for C2: with the fixture oracle that always times out on the bad
URL, fetch_json makes exactly three attempts, and the batch holding only the
bad nightly record is aborted by the propagating TimeoutError. -/
theorem C2_retry_bound_amended_witness :
    fetch_json (fun _ _ => .timeout) "u" 3 = (.error .timeoutError, 3)
    ∧ (process_batch cxEnv (fun _ _ => true) [cxBad] true emptyCaches).1
        = .error .timeoutError := by
  refine ⟨C2_retry_bound_amended.1 (fun _ _ => .timeout) "u" 3 (by decide) (fun _ => rfl), ?_⟩
  exact (C2_retry_bound_amended.2.2 cxEnv cxBad emptyCaches (by decide) rfl
    (fun _ => rfl) (by decide)).2 (fun _ _ => true) true

/-- C9: confirmed.  For a record dispatched to the release-candidate strategy
(no nightly in the channel, rc in the version, no cache entry for the
localized URL) whose metadata JSON fetch succeeds while the original download
URL holds no /build digits/ segment, the build-number extraction raises
AttributeError (m.group on a failed match); fetch_metadata catches only
ValueError, so the error propagates and the gather of process_batch raises,
aborting the whole batch, even when a sibling record resolved fine. -/
theorem C9_missing_build_segment_aborts_batch
    (env : Env) (r : BuildRecord) (c : Caches) (m : Metadata)
    (hch : strContains "nightly" r.channel = false)
    (hrc : strContains "rc" r.version = true)
    (hcache : lookupD c.rc (env.localize_rc r.url) = none)
    (hok : env.jsonNet (rc_metadata_url env.exts env.localize_rc r) 0 = .ok m)
    (hmt : 0 < env.max_tries)
    (hseg : findBuildSegment r.url.data = none) :
    fetch_release_candidate_metadata env.exts env.localize_rc env.jsonNet
        env.max_tries r c.rc
      = (.error .attributeError, c.rc, 1)
    ∧ fetch_metadata env r c = (.error .attributeError, c, 1)
    ∧ (∀ (check : BuildRecord → Option Metadata → Bool) (skip : Bool),
        (process_batch env check [r] skip c).1 = .error .attributeError)
    ∧ (∀ (r0 : BuildRecord) (v : Option Metadata)
        (check : BuildRecord → Option Metadata → Bool) (skip : Bool),
        strContains "nightly" r0.channel = true →
        lookupD c.nightly (env.localize_nightly r0.url) = some v →
        (process_batch env check [r0, r] skip c).1 = .error .attributeError) := by
  have hfj : fetch_json env.jsonNet (rc_metadata_url env.exts env.localize_rc r)
      env.max_tries = (.ok m, 1) := by
    obtain ⟨k, hk⟩ : ∃ k, env.max_tries = k + 1 := ⟨env.max_tries - 1, by omega⟩
    rw [fetch_json, hk]
    simp only [fetch_json_go, hok]
  have ha : fetch_release_candidate_metadata env.exts env.localize_rc env.jsonNet
      env.max_tries r c.rc = (.error .attributeError, c.rc, 1) := by
    simp only [fetch_release_candidate_metadata, hcache, hfj, hseg]
  have hb : fetch_metadata env r c = (.error .attributeError, c, 1) := by
    simp only [fetch_metadata, hch, hrc, ha, Bool.false_eq_true, if_false, if_true]
  refine ⟨ha, hb, ?_, ?_⟩
  · intro check skip
    simp only [process_batch, fetchAll, hb, firstError]
  · intro r0 v check skip hch0 hhit
    have h0 : fetch_metadata env r0 c = (.ok v, c, 0) := by
      simp only [fetch_metadata, hch0, if_true, fetch_nightly_metadata, hhit]
    simp only [process_batch, fetchAll, h0, hb, firstError]

/-- Witness for C9: the fixture release-candidate record for firefox 55.0rc1,
whose URL has no /build digits/ segment, raises AttributeError from
fetch_metadata and aborts both the singleton batch and the batch holding a
successfully resolved sibling. -/
theorem C9_missing_build_segment_aborts_batch_witness :
    fetch_metadata c9env c9record c9caches = (.error .attributeError, c9caches, 1)
    ∧ (process_batch c9env (fun _ _ => true) [c9sibling, c9record] true c9caches).1
        = .error .attributeError := by
  have h := C9_missing_build_segment_aborts_batch c9env c9record c9caches {}
    (by decide) (by decide) rfl rfl (by decide) (by decide)
  exact ⟨h.2.1, h.2.2.2 c9sibling (some {}) (fun _ _ => true) true (by decide) rfl⟩

/-- C3 amended: among entries normalizing to the same identity the survivor
is the one with the shorter raw key, whichever order the two entries arrive
in (the dict comprehension iterates longest keys first, so the shortest is
written last); for equal-length keys, such as a zip and a bare exe variant,
the entry later in the input order wins, which in a key-sorted inventory is
the zip entry. -/
theorem C3_dedup_shorter_key_survives (e1 e2 : InventoryEntry)
    (hnorm : normalize_key e1.Key = normalize_key e2.Key) :
    (e2.Key.length < e1.Key.length →
        deduplicate_entries [e1, e2] = [e2] ∧ deduplicate_entries [e2, e1] = [e2])
    ∧ (e1.Key.length = e2.Key.length → deduplicate_entries [e1, e2] = [e2]) := by
  constructor
  · intro hlt
    constructor
    · simp only [deduplicate_entries, sortedByLenDesc, List.foldl_cons, List.foldl_nil,
        insertByLenDesc]
      rw [if_neg (by omega : ¬ e1.Key.length < e2.Key.length)]
      simp [insertD, hasKeyD, hnorm]
    · simp only [deduplicate_entries, sortedByLenDesc, List.foldl_cons, List.foldl_nil,
        insertByLenDesc]
      rw [if_pos hlt]
      simp [insertD, hasKeyD, hnorm]
  · intro heq
    simp only [deduplicate_entries, sortedByLenDesc, List.foldl_cons, List.foldl_nil,
      insertByLenDesc]
    rw [if_neg (by omega : ¬ e1.Key.length < e2.Key.length)]
    simp [insertD, hasKeyD, hnorm]

/-- Witness for C3: on the installer.tar.gz entry and its shorter tar.gz
sibling, deduplication keeps the tar.gz entry in either input order. -/
theorem C3_dedup_shorter_key_survives_witness :
    deduplicate_entries [entInstaller, entTarGz] = [entTarGz]
    ∧ deduplicate_entries [entTarGz, entInstaller] = [entTarGz] :=
  (C3_dedup_shorter_key_survives entInstaller entTarGz rfl).1 (by decide)

/-- Helper: a false membership test means find? comes up empty. -/
theorem find?_eq_none_of_hasKeyD {β : Type} (m : List (String × β)) (k : String)
    (h : hasKeyD m k = false) : m.find? (fun p => p.1 == k) = none := by
  rw [List.find?_eq_none]
  intro x hx
  have := List.any_eq_false.mp h x hx
  simpa using this

/-- C10 amended: for every product other than mobile, looking up a release
record for a never-scanned product inserts an empty map for it into the
candidate index (the defaultdict access) and resolves to None without any
request, and every later scan of that product returns immediately as a no-op
with no listing fetched, so the index entry stays empty; for mobile itself
the later scan checks the alias fennec instead and is not a no-op. -/
theorem C10_defaultdict_lookup_sideeffect
    (is_meta : String → String → String → Bool)
    (release_url : String → String → String → String → String → String)
    (jsonNet : String → Nat → AttemptOutcome)
    (listNet : String → Except Exc (List String × List String)) (max_tries : Nat)
    (r : BuildRecord) (cd : CandDict) (rel : MetaDict)
    (hmob : r.product ≠ "mobile")
    (hnew : hasKeyD cd r.product = false) :
    fetch_release_metadata is_meta release_url jsonNet listNet max_tries r cd rel
      = (.ok none, cd ++ [(r.product, [])], rel, 0)
    ∧ ∀ (cu : String → String) (bu : String → String → String)
        (ln : String → Except Exc (List String × List String)) (nb : Nat),
        scan_candidates cu bu ln nb r.product (cd ++ [(r.product, [])])
          = (none, cd ++ [(r.product, [])], []) := by
  constructor
  · simp only [fetch_release_metadata, defaultdictAccess,
      find?_eq_none_of_hasKeyD cd r.product hnew]
    rfl
  · intro cu bu ln nb
    have halias : scanAlias r.product = r.product := by
      simp [scanAlias, beq_eq_false_iff_ne.mpr hmob]
    have hkey : hasKeyD (cd ++ [(r.product, [])]) r.product = true := by
      simp [hasKeyD, List.any_append]
    simp only [scan_candidates, halias, hkey, if_true]

/-- Witness for C10: a release lookup for the never-scanned product firefox
inserts an empty firefox entry into the index, and a later scan of firefox
returns immediately with nothing fetched. -/
theorem C10_defaultdict_lookup_sideeffect_witness :
    fetch_release_metadata anyMeta concatUrl alwaysOkJson emptyListNet 3
        c5record [] []
      = (.ok none, [("firefox", [])], [], 0)
    ∧ scan_candidates candUrlOf buildsUrlOf emptyListNet 8 "firefox"
        [("firefox", [])]
      = (none, [("firefox", [])], []) := by
  have h := C10_defaultdict_lookup_sideeffect anyMeta concatUrl alwaysOkJson
    emptyListNet 3 c5record [] [] (by decide) rfl
  exact ⟨h.1, h.2 candUrlOf buildsUrlOf emptyListNet 8⟩

/-- Helper: writing a version entry always leaves the product key present. -/
theorem candInsert_hasKey (cd : CandDict) (p v f : String) :
    hasKeyD (candInsert cd p v f) p = true := by
  by_cases h : hasKeyD cd p = true
  · simp only [candInsert, h, if_true]
    obtain ⟨q, hq, hqp⟩ := List.any_eq_true.mp h
    refine List.any_eq_true.mpr ⟨(p, insertD q.2 v f), List.mem_map.mpr ⟨q, hq, ?_⟩, by simp⟩
    simp [hqp]
  · simp only [Bool.not_eq_true] at h
    simp only [candInsert, h, Bool.false_eq_true, if_false]
    simp [hasKeyD, List.any_append]

/-- Helper: writing a version entry preserves every present product key. -/
theorem candInsert_keeps (cd : CandDict) (p v f x : String)
    (h : hasKeyD cd x = true) : hasKeyD (candInsert cd p v f) x = true := by
  by_cases hp : hasKeyD cd p = true
  · simp only [candInsert, hp, if_true]
    obtain ⟨q, hq, hqx⟩ := List.any_eq_true.mp h
    refine List.any_eq_true.mpr ⟨if q.1 == p then (p, insertD q.2 v f) else q,
      List.mem_map.mpr ⟨q, hq, rfl⟩, ?_⟩
    by_cases hqp : (q.1 == p) = true
    · have h1 : q.1 = p := by simpa using hqp
      have h2 : q.1 = x := by simpa using hqx
      simp only [hqp, if_true]
      simp [h1.symm.trans h2]
    · simp only [hqp, Bool.false_eq_true, if_false]
      simpa using hqx
  · simp only [Bool.not_eq_true] at hp
    simp only [candInsert, hp, Bool.false_eq_true, if_false]
    simp only [hasKeyD, List.any_append, Bool.or_eq_true]
    exact Or.inl h

/-- Helper: the write loop preserves every present product key. -/
theorem foldWrites_keeps (p x : String) :
    ∀ (l : List (String × List String)) (cd : CandDict),
      hasKeyD cd x = true → hasKeyD (foldWrites p l cd).2 x = true := by
  intro l
  induction l with
  | nil => intro cd h; exact h
  | cons a rest ih =>
    intro cd h
    obtain ⟨v, builds⟩ := a
    cases builds with
    | nil => exact h
    | cons b bs =>
      simp only [foldWrites]
      exact ih _ (candInsert_keeps cd p v _ x h)

/-- Helper: foldWrites_keeps in equation form, for use after a match split. -/
theorem foldWrites_keeps_eq (p x : String) (l : List (String × List String))
    (cd cd2 : CandDict) (oe : Option Exc) (heq : foldWrites p l cd = (oe, cd2))
    (h : hasKeyD cd x = true) : hasKeyD cd2 x = true := by
  have h2 := foldWrites_keeps p x l cd h
  rw [heq] at h2
  exact h2

/-- Helper: the write loop either writes nothing or leaves the product key
present. -/
theorem foldWrites_state (p : String) :
    ∀ (l : List (String × List String)) (cd : CandDict),
      (foldWrites p l cd).2 = cd ∨ hasKeyD (foldWrites p l cd).2 p = true := by
  intro l
  induction l with
  | nil => intro cd; left; rfl
  | cons a rest ih =>
    intro cd
    obtain ⟨v, builds⟩ := a
    cases builds with
    | nil => left; rfl
    | cons b bs =>
      right
      simp only [foldWrites]
      exact foldWrites_keeps p p rest _ (candInsert_hasKey cd p v _)

/-- Helper: foldWrites_state in equation form, for use after a match split. -/
theorem foldWrites_state_eq (p : String) (l : List (String × List String))
    (cd cd2 : CandDict) (oe : Option Exc) (heq : foldWrites p l cd = (oe, cd2)) :
    cd2 = cd ∨ hasKeyD cd2 p = true := by
  have h2 := foldWrites_state p l cd
  rw [heq] at h2
  exact h2

/-- Helper: the chunk loop preserves every present product key. -/
theorem scanChunks_keeps (bu : String → String → String)
    (ln : String → Except Exc (List String × List String)) (p x : String) :
    ∀ (chunks : List (List String)) (cd : CandDict),
      hasKeyD cd x = true → hasKeyD (scanChunks bu ln p chunks cd).2.1 x = true := by
  intro chunks
  induction chunks with
  | nil => intro cd h; exact h
  | cons chunk rest ih =>
    intro cd h
    simp only [scanChunks]
    split
    · exact h
    · split
      next e cd2 heq => exact foldWrites_keeps_eq p x _ cd cd2 _ heq h
      next cd2 heq => exact ih cd2 (foldWrites_keeps_eq p x _ cd cd2 _ heq h)

/-- Helper: a completed chunk loop either left the index untouched or the
product key present. -/
theorem scanChunks_state (bu : String → String → String)
    (ln : String → Except Exc (List String × List String)) (p : String) :
    ∀ (chunks : List (List String)) (cd : CandDict),
      (scanChunks bu ln p chunks cd).2.1 = cd
      ∨ hasKeyD (scanChunks bu ln p chunks cd).2.1 p = true := by
  intro chunks
  induction chunks with
  | nil => intro cd; left; rfl
  | cons chunk rest ih =>
    intro cd
    simp only [scanChunks]
    split
    · left; rfl
    · split
      next e cd2 heq => exact foldWrites_state_eq p _ cd cd2 _ heq
      next cd2 heq =>
        rcases ih cd2 with h3 | h3
        · rcases foldWrites_state_eq p _ cd cd2 _ heq with h2 | h2
          · left; simpa [h2] using h3
          · right
            rw [h3]
            exact h2
        · right; exact h3

/-- Helper: one scan call either leaves the index untouched or leaves the
aliased product key present. -/
theorem scan_state (cu : String → String) (bu : String → String → String)
    (ln : String → Except Exc (List String × List String)) (nb : Nat)
    (product : String) (cd : CandDict) :
    (scan_candidates cu bu ln nb product cd).2.1 = cd
    ∨ hasKeyD (scan_candidates cu bu ln nb product cd).2.1 (scanAlias product) = true := by
  by_cases hk : hasKeyD cd (scanAlias product) = true
  · left
    simp only [scan_candidates, hk, if_true]
  · simp only [Bool.not_eq_true] at hk
    simp only [scan_candidates, hk, Bool.false_eq_true, if_false]
    cases hl : ln (cu (scanAlias product)) with
    | error e => left; rfl
    | ok pf => simpa using scanChunks_state bu ln (scanAlias product) (chunked pf.1 nb) cd

/-- C6 amended: re-running scan leaves the Candidate Build Index unchanged,
and the second call is a strict no-op (nothing fetched, returning
immediately) exactly when the first call left the product key present, which
holds whenever it recorded at least one candidate version; a completed scan
that found no -candidates folders inserts no key, so a second call fetches
the listings again (still leaving the index unchanged). -/
theorem C6_scan_idempotent_amended (cu : String → String) (bu : String → String → String)
    (ln : String → Except Exc (List String × List String)) (nb : Nat)
    (product : String) (cd : CandDict) :
    (hasKeyD cd (scanAlias product) = true →
        scan_candidates cu bu ln nb product cd = (none, cd, []))
    ∧ ((scan_candidates cu bu ln nb product cd).1 = none →
        (scan_candidates cu bu ln nb product
            ((scan_candidates cu bu ln nb product cd).2.1)).2.1
          = (scan_candidates cu bu ln nb product cd).2.1) := by
  have head : ∀ st, hasKeyD st (scanAlias product) = true →
      scan_candidates cu bu ln nb product st = (none, st, []) := by
    intro st h
    simp only [scan_candidates, h, if_true]
  refine ⟨head cd, ?_⟩
  intro h1
  rcases scan_state cu bu ln nb product cd with hs | hs
  · rw [hs]
    exact hs
  · rw [head _ hs]

/-- Witness for C6: a scan of an already-populated index entry is a strict
no-op, and after a completed first scan on the empty-listing fixture the
second scan leaves the index unchanged. -/
theorem C6_scan_idempotent_amended_witness :
    scan_candidates candUrlOf buildsUrlOf emptyListNet 8 "firefox"
        [("firefox", [("55.0", "build3/")])]
      = (none, [("firefox", [("55.0", "build3/")])], [])
    ∧ (scan_candidates candUrlOf buildsUrlOf emptyListNet 8 "firefox"
        ((scan_candidates candUrlOf buildsUrlOf emptyListNet 8 "firefox" []).2.1)).2.1
      = (scan_candidates candUrlOf buildsUrlOf emptyListNet 8 "firefox" []).2.1 := by
  refine ⟨(C6_scan_idempotent_amended candUrlOf buildsUrlOf emptyListNet 8 "firefox"
      [("firefox", [("55.0", "build3/")])]).1 (by decide), ?_⟩
  exact (C6_scan_idempotent_amended candUrlOf buildsUrlOf emptyListNet 8 "firefox" []).2 rfl

/-- Helper: invariant of the grouping loop.  Starting from a non-empty
current group whose entries all live in the folder prev, the emitted groups
flatten back to the remaining input in order, every group is non-empty and
folder-constant, adjacent groups live in different folders, and the first
emitted group still lives in prev. -/
theorem ibfLoop_props (rest : List InventoryEntry) :
    ∀ (prev : String) (result : List InventoryEntry), result ≠ [] →
      (∀ a ∈ result, dirname a.Key = prev) →
      (ibfLoop prev result rest).flatten = result ++ rest
      ∧ (∀ g ∈ ibfLoop prev result rest, g ≠ [])
      ∧ (∀ g ∈ ibfLoop prev result rest, ∀ a ∈ g, ∀ b ∈ g, dirname a.Key = dirname b.Key)
      ∧ List.Chain' (fun g h => ∀ a ∈ g, ∀ b ∈ h, dirname a.Key ≠ dirname b.Key)
          (ibfLoop prev result rest)
      ∧ (∀ g ∈ (ibfLoop prev result rest).head?, ∀ a ∈ g, dirname a.Key = prev) := by
  induction rest with
  | nil =>
    intro prev result hne hall
    have hemp : result.isEmpty = false := by
      cases result with
      | nil => exact absurd rfl hne
      | cons a l => rfl
    simp only [ibfLoop, hemp, Bool.false_eq_true, if_false]
    refine ⟨by simp, by simp [hne], ?_, by simp, ?_⟩
    · intro g hg a ha b hb
      rw [List.mem_singleton] at hg
      subst hg
      rw [hall a ha, hall b hb]
    · intro g hg a ha
      simp only [List.head?_cons, Option.mem_def, Option.some.injEq] at hg
      subst hg
      exact hall a ha
  | cons e rest ih =>
    intro prev result hne hall
    by_cases h : (prev == dirname e.Key) = true
    · have heq : prev = dirname e.Key := by simpa using h
      simp only [ibfLoop, h, if_true]
      have hall2 : ∀ a ∈ result ++ [e], dirname a.Key = prev := by
        intro a ha
        rcases List.mem_append.mp ha with ha1 | ha1
        · exact hall a ha1
        · rw [List.mem_singleton] at ha1
          subst ha1
          exact heq.symm
      obtain ⟨h1, h2, h3, h4, h5⟩ := ih prev (result ++ [e]) (by simp) hall2
      exact ⟨by simpa [List.append_assoc] using h1, h2, h3, h4, h5⟩
    · have hneq : prev ≠ dirname e.Key := by simpa using h
      simp only [ibfLoop, h, Bool.false_eq_true, if_false]
      obtain ⟨h1, h2, h3, h4, h5⟩ := ih (dirname e.Key) [e] (by simp) (by simp)
      have htail : ibfLoop (dirname e.Key) [e] rest ≠ [] := by
        intro hcon
        rw [hcon] at h1
        simp at h1
      refine ⟨?_, ?_, ?_, ?_, ?_⟩
      · simp only [List.flatten_cons, h1]
        simp
      · intro g hg
        rcases List.mem_cons.mp hg with hg1 | hg1
        · subst hg1; exact hne
        · exact h2 g hg1
      · intro g hg a ha b hb
        rcases List.mem_cons.mp hg with hg1 | hg1
        · subst hg1
          rw [hall a ha, hall b hb]
        · exact h3 g hg1 a ha b hb
      · rw [List.chain'_cons']
        refine ⟨?_, h4⟩
        intro y hy a ha b hb
        rw [hall a ha, h5 y hy b hb]
        exact hneq
      · intro g hg a ha
        simp only [List.head?_cons, Option.mem_def, Option.some.injEq] at hg
        subst hg
        exact hall a ha

/-- C7: confirmed.  The grouper emits a decomposition of the input into
maximal runs of same-directory entries: the groups flatten back to the input
(so entries stay in arrival order and the trailing non-empty group is
flushed), no group is empty, all entries of a group share their directory,
and adjacent groups have different directories; hence on input sorted so
that entries sharing a directory are contiguous, each such directory forms
exactly one group. -/
theorem C7_grouping_maximal_runs (l : List InventoryEntry) :
    (inventory_by_folder l).flatten = l
    ∧ (∀ g ∈ inventory_by_folder l, g ≠ [])
    ∧ (∀ g ∈ inventory_by_folder l, ∀ a ∈ g, ∀ b ∈ g, dirname a.Key = dirname b.Key)
    ∧ List.Chain' (fun g h => ∀ a ∈ g, ∀ b ∈ h, dirname a.Key ≠ dirname b.Key)
        (inventory_by_folder l) := by
  cases l with
  | nil => exact ⟨rfl, by simp [inventory_by_folder], by simp [inventory_by_folder],
      by simp [inventory_by_folder]⟩
  | cons e rest =>
    obtain ⟨h1, h2, h3, h4, _⟩ := ibfLoop_props rest (dirname e.Key) [e] (by simp) (by simp)
    exact ⟨by simpa using h1, h2, h3, h4⟩

end Buildhub
